/-
  Verification of the `bitmap` crate (src/src/lib.rs): a minimal 24-bit
  BMP raster buffer and encoder.

  The embedding is shallow: the `Bitmap` struct holds `width`/`height`
  as mathematical integers standing for the Rust `i32` fields, and the
  pixel array as a list of byte values (`Nat`, each < 256 in practice).
  Every arithmetic operation the Rust code performs on `i32` values is
  wrapped with `wrap32` (two's-complement wrap-around), casts `as uint`
  / `as u32` / `as u8` are modelled explicitly, and the fallible
  `Vec::get_mut` indexing of `set_pixel` is modelled with `Option`.
  The file sink of `write_to_file` is abstracted as a stateful byte
  sink that can fail, matching the spec's sink abstraction; the three
  `file.write` calls with `try!` become three sequenced `write` calls.
-/
import Mathlib

set_option linter.unusedVariables false

/-- Two's-complement wrap-around of an `i32` arithmetic result. -/
def wrap32 (v : Int) : Int := (v + 2 ^ 31) % 2 ^ 32 - 2 ^ 31

/-- The Rust cast `v as u32` applied to an `i32` value `v`. -/
def toU32 (v : Int) : Nat := (v % 2 ^ 32).toNat

/-- The Rust cast `v as uint` (64-bit `usize`) applied to an `i32` value `v`. -/
def toUint (v : Int) : Nat := (v % 2 ^ 64).toNat

/-- The Rust expression `(v >> (8*k)) as u8` for a `u32` value `v`
(logical shift right, then truncation to the low byte). -/
def u32byte (v : Nat) (k : Nat) : Nat := v / 2 ^ (8 * k) % 256

/-- The Rust expression `(v >> (8*k)) as u8` for an `i32` value `v`
(arithmetic shift right, i.e. floor division, then the low byte of the
two's-complement representation). -/
def i32byte (v : Int) (k : Nat) : Nat := ((v.fdiv (2 ^ (8 * k))) % 256).toNat

/-- Little-endian byte decomposition of `n` into `k` bytes (the spec's
"little-endian" reading of multi-byte fields). -/
def leBytes (n : Nat) : Nat → List Nat
  | 0 => []
  | k + 1 => n % 256 :: leBytes (n / 256) k

/-- `Vec::get_mut(i)`-then-assign: succeeds exactly when `i` is in
bounds (out of bounds, the Rust call fails the task). -/
def vecSet (l : List Nat) (i : Nat) (v : Nat) : Option (List Nat) :=
  if i < l.length then some (l.set i v) else none

/-- The `Bitmap` struct of src/src/lib.rs: two `i32` dimensions and the
padded pixel byte array. -/
structure Bitmap where
  width : Int
  height : Int
  pixels : List Nat

/-- `Bitmap::new(width, height)`: a pixel vector of
`(height * (width * 3 + width % 4)) as uint` bytes, all `0xFF`.
Rust `%` on `i32` is truncated remainder (`Int.tmod`); each `i32`
operation wraps. -/
def Bitmap.new (width height : Int) : Bitmap :=
  { width := width
    height := height
    pixels := List.replicate
      (toUint (wrap32 (height * wrap32 (wrap32 (width * 3) + width.tmod 4)))) 0xFF }

/-- The byte offset `((self.height - y - 1) * (self.width * 3) + x * 3) as uint`
computed by `Bitmap::set_pixel`. -/
def Bitmap.pixelOffset (bm : Bitmap) (x y : Int) : Nat :=
  toUint (wrap32 (wrap32 (wrap32 (wrap32 (bm.height - y) - 1) * wrap32 (bm.width * 3))
    + wrap32 (x * 3)))

/-- `Bitmap::set_pixel(x, y, (r, g, b))`: writes `b`, `g`, `r` at offsets
`i`, `i+1`, `i+2` through three `get_mut` calls, each of which fails out
of bounds. -/
def Bitmap.set_pixel (bm : Bitmap) (x y : Int) (color : Nat × Nat × Nat) :
    Option Bitmap :=
  let i := bm.pixelOffset x y
  match color with
  | (r, g, b) =>
    (vecSet bm.pixels (i + 0) b).bind fun p0 =>
      (vecSet p0 (i + 1) g).bind fun p1 =>
        (vecSet p1 (i + 2) r).bind fun p2 =>
          some { bm with pixels := p2 }

/-- `image_size = (self.height * self.width*3 + self.height * (self.width % 4)) as u32`. -/
def Bitmap.imageSize (bm : Bitmap) : Nat :=
  toU32 (wrap32 (wrap32 (wrap32 (bm.height * bm.width) * 3)
    + wrap32 (bm.height * bm.width.tmod 4)))

/-- `file_size = image_size + TOTAL_HEADER_SIZE` in `u32` arithmetic. -/
def Bitmap.fileSize (bm : Bitmap) : Nat := (bm.imageSize + 54) % 2 ^ 32

/-- The 14-byte BMP file header array built by `write_to_file`:
`'B'`, `'M'`, the four little-endian bytes of `file_size`, two reserved
half-words, and `TOTAL_HEADER_SIZE as u8` followed by three zero bytes. -/
def Bitmap.fileHeader (bm : Bitmap) : List Nat :=
  [66, 77,
   u32byte bm.fileSize 0, u32byte bm.fileSize 1, u32byte bm.fileSize 2, u32byte bm.fileSize 3,
   0, 0,
   0, 0,
   54, 0, 0, 0]

/-- The 40-byte BMP info header array built by `write_to_file`. -/
def Bitmap.infoHeader (bm : Bitmap) : List Nat :=
  [40, 0, 0, 0,
   i32byte bm.width 0, i32byte bm.width 1, i32byte bm.width 2, i32byte bm.width 3,
   i32byte bm.height 0, i32byte bm.height 1, i32byte bm.height 2, i32byte bm.height 3,
   1, 0,
   24, 0,
   0, 0, 0, 0,
   u32byte bm.imageSize 0, u32byte bm.imageSize 1, u32byte bm.imageSize 2, u32byte bm.imageSize 3,
   72, 0, 0, 0,
   72, 0, 0, 0,
   0, 0, 0, 0,
   0, 0, 0, 0]

/-- The spec's sink abstraction: a destination that accepts a chunk of
bytes and either reports the next state or fails with an error. -/
structure Sink (σ ε : Type) where
  write : σ → List Nat → Except ε σ

/-- `Bitmap::write_to_file` against an abstract sink: the three
`file.write` calls (file header, info header, pixel data), each behind
`try!` so the first failure is returned at once. -/
def Bitmap.write_to_file {σ ε : Type} (bm : Bitmap) (sink : Sink σ ε) (s : σ) :
    Except ε σ :=
  match sink.write s bm.fileHeader with
  | Except.error e => Except.error e
  | Except.ok s1 =>
    match sink.write s1 bm.infoHeader with
    | Except.error e => Except.error e
    | Except.ok s2 => sink.write s2 bm.pixels

/-- The infallible sink that accumulates every byte written to it. -/
def pureSink : Sink (List Nat) Empty :=
  { write := fun s chunk => Except.ok (s ++ chunk) }

/-- The full byte stream `write_to_file` sends to a sink that accepts
everything. -/
def Bitmap.encodeBytes (bm : Bitmap) : List Nat :=
  match bm.write_to_file pureSink [] with
  | Except.ok s => s
  | Except.error e => e.elim

/-- Modelled from the spec: the repository exposes no pixel read-back,
so "reading back pixel (x, y)" is the query the spec describes — the
bytes at offsets `i`, `i+1`, `i+2` for
`i = (height - y - 1) * (width * 3) + x * 3`, stored `(blue, green,
red)`, returned in caller order `(r, g, b)`. -/
def Bitmap.getPixel (bm : Bitmap) (x y : Int) : Nat × Nat × Nat :=
  let i := ((bm.height - y - 1) * (bm.width * 3) + x * 3).toNat
  (bm.pixels.getD (i + 2) 0, bm.pixels.getD (i + 1) 0, bm.pixels.getD (i + 0) 0)

/-! ### Arithmetic helper lemmas
These discharge the `i32` wrap-arounds and casts on the in-range inputs
the claims quantify over. -/

lemma wrap32_eq_self {v : Int} (h1 : -(2 ^ 31) ≤ v) (h2 : v < 2 ^ 31) :
    wrap32 v = v := by
  unfold wrap32; omega

lemma wrap32_ofNat (n : Nat) (h : n < 2 ^ 31) : wrap32 (n : Int) = (n : Int) := by
  apply wrap32_eq_self
  · exact le_trans (by norm_num) (Int.ofNat_nonneg n)
  · exact_mod_cast h

lemma toU32_ofNat (n : Nat) (h : n < 2 ^ 32) : toU32 (n : Int) = n := by
  unfold toU32; omega

lemma toUint_ofNat (n : Nat) (h : n < 2 ^ 64) : toUint (n : Int) = n := by
  unfold toUint; omega

lemma i32byte_ofNat (n k : Nat) : i32byte (n : Int) k = n / 2 ^ (8 * k) % 256 := by
  unfold i32byte
  rw [show ((2 : Int) ^ (8 * k)) = ((2 ^ (8 * k) : Nat) : Int) by push_cast; ring,
    ← Int.ofNat_fdiv]
  omega

/-- The `u32byte` shift-and-truncate decomposition is exactly the
little-endian 4-byte encoding. -/
lemma u32bytes_eq_leBytes (n : Nat) :
    [u32byte n 0, u32byte n 1, u32byte n 2, u32byte n 3] = leBytes n 4 := by
  simp only [u32byte, leBytes, Nat.div_div_eq_div_mul]
  norm_num

/-- Same for the `(width >> 8k) as u8` bytes of a nonnegative `i32`. -/
lemma i32bytes_eq_leBytes (n : Nat) :
    [i32byte (n : Int) 0, i32byte (n : Int) 1, i32byte (n : Int) 2, i32byte (n : Int) 3]
      = leBytes n 4 := by
  simp only [i32byte_ofNat]
  exact u32bytes_eq_leBytes n

/-- The pixel array allocated by `Bitmap::new`, with the `i32`
wrap-arounds discharged: `height * (width*3 + width%4)` bytes of `0xFF`. -/
lemma new_pixels_eq (w h : Nat) (hw : 0 < w) (hh : 0 < h)
    (hb : h * (3 * w + w % 4) < 2 ^ 31) :
    (Bitmap.new (w : Int) (h : Int)).pixels
      = List.replicate (h * (3 * w + w % 4)) 255 := by
  have hX : 3 * w + w % 4 < 2 ^ 31 :=
    lt_of_le_of_lt (Nat.le_mul_of_pos_left _ hh) hb
  have ht : ((w : Int)).tmod 4 = ((w % 4 : Nat) : Int) := (Int.ofNat_tmod w 4).symm
  have e1 : ((w : Int)) * 3 = ((w * 3 : Nat) : Int) := by push_cast; ring
  have e2 : wrap32 ((w : Int) * 3) = ((w * 3 : Nat) : Int) := by
    rw [e1, wrap32_ofNat _ (by omega)]
  have e3 : wrap32 (wrap32 ((w : Int) * 3) + ((w : Int)).tmod 4)
      = ((w * 3 + w % 4 : Nat) : Int) := by
    rw [e2, ht, show ((w * 3 : Nat) : Int) + ((w % 4 : Nat) : Int)
      = ((w * 3 + w % 4 : Nat) : Int) by push_cast; ring]
    exact wrap32_ofNat _ (by omega)
  have e4 : wrap32 ((h : Int) * ((w * 3 + w % 4 : Nat) : Int))
      = ((h * (w * 3 + w % 4) : Nat) : Int) := by
    rw [show ((h : Int) * ((w * 3 + w % 4 : Nat) : Int))
      = ((h * (w * 3 + w % 4) : Nat) : Int) by push_cast; ring]
    exact wrap32_ofNat _ (by rw [show w * 3 = 3 * w by ring]; exact hb)
  simp only [Bitmap.new]
  rw [e3, e4, toUint_ofNat _ (by rw [show w * 3 = 3 * w by ring]; omega),
    show w * 3 = 3 * w by ring]

lemma new_width (w h : Int) : (Bitmap.new w h).width = w := rfl

lemma new_height (w h : Int) : (Bitmap.new w h).height = h := rfl

/-- The `image_size` computed by `write_to_file`, wrap-arounds
discharged, equals `height*width*3 + height*(width % 4)`. -/
lemma imageSize_eq (bm : Bitmap) (w h : Nat) (hbw : bm.width = (w : Int))
    (hbh : bm.height = (h : Int)) (hw : 0 < w) (hh : 0 < h)
    (hb : h * (3 * w + w % 4) < 2 ^ 31) :
    bm.imageSize = h * w * 3 + h * (w % 4) := by
  have hsplit : h * w * 3 + h * (w % 4) = h * (3 * w + w % 4) := by ring
  have h1 : h * w * 3 < 2 ^ 31 := by
    have : h * w * 3 ≤ h * (3 * w + w % 4) := by
      rw [show h * w * 3 = h * (3 * w) by ring]
      exact Nat.mul_le_mul_left h (Nat.le_add_right _ _)
    omega
  have h2 : h * (w % 4) ≤ h * (3 * w + w % 4) :=
    Nat.mul_le_mul_left h (by omega)
  unfold Bitmap.imageSize
  rw [hbw, hbh]
  have ht : ((w : Int)).tmod 4 = ((w % 4 : Nat) : Int) := (Int.ofNat_tmod w 4).symm
  have e1 : wrap32 ((h : Int) * (w : Int)) = ((h * w : Nat) : Int) := by
    rw [show ((h : Int) * (w : Int)) = ((h * w : Nat) : Int) by push_cast; ring]
    exact wrap32_ofNat _ (lt_of_le_of_lt (Nat.le_mul_of_pos_right _ (by norm_num)) h1)
  have e2 : wrap32 (((h * w : Nat) : Int) * 3) = ((h * w * 3 : Nat) : Int) := by
    rw [show (((h * w : Nat) : Int) * 3) = ((h * w * 3 : Nat) : Int) by push_cast; ring]
    exact wrap32_ofNat _ h1
  have e3 : wrap32 ((h : Int) * ((w : Int)).tmod 4) = ((h * (w % 4) : Nat) : Int) := by
    rw [ht, show ((h : Int) * ((w % 4 : Nat) : Int)) = ((h * (w % 4) : Nat) : Int) by
      push_cast; ring]
    exact wrap32_ofNat _ (lt_of_le_of_lt h2 hb)
  have e4 : wrap32 (((h * w * 3 : Nat) : Int) + ((h * (w % 4) : Nat) : Int))
      = ((h * w * 3 + h * (w % 4) : Nat) : Int) := by
    rw [show (((h * w * 3 : Nat) : Int) + ((h * (w % 4) : Nat) : Int))
      = ((h * w * 3 + h * (w % 4) : Nat) : Int) by push_cast; ring]
    exact wrap32_ofNat _ (by rw [hsplit]; exact hb)
  rw [e1, e2, e3, e4, toU32_ofNat _ (by rw [hsplit]; exact lt_trans hb (by norm_num))]

/-- `file_size` is `image_size + 54` whenever the `u32` addition does
not wrap (in particular for every in-range bitmap). -/
lemma fileSize_eq (bm : Bitmap) (h : bm.imageSize + 54 < 2 ^ 32) :
    bm.fileSize = bm.imageSize + 54 := by
  unfold Bitmap.fileSize
  omega

/-- The in-range pixel offset stays strictly below the allocated
length, with two bytes to spare. -/
lemma offset_lt (w h x y : Nat) (hx : x < w) (hy : y < h) :
    (h - 1 - y) * (3 * w) + 3 * x + 2 < h * (3 * w + w % 4) := by
  have hA : (h - 1 - y) * (3 * w) ≤ (h - 1) * (3 * w) :=
    Nat.mul_le_mul_right _ (by omega)
  have hB : ((h - 1) + 1) * (3 * w) = (h - 1) * (3 * w) + 3 * w := Nat.succ_mul _ _
  have hB' : (h - 1) + 1 = h := by omega
  rw [hB'] at hB
  have hC : h * (3 * w) ≤ h * (3 * w + w % 4) :=
    Nat.mul_le_mul_left h (Nat.le_add_right _ _)
  have hx3 : 3 * (x + 1) ≤ 3 * w := Nat.mul_le_mul_left 3 (by omega)
  have hx3' : 3 * (x + 1) = 3 * x + 3 := by ring
  linarith

/-- Rearranging the source's offset expression into the spec's shape. -/
lemma offset_comm (w h x y : Nat) (hy : y < h) :
    (h - y - 1) * (w * 3) + x * 3 = (h - 1 - y) * (3 * w) + 3 * x := by
  have e : h - y - 1 = h - 1 - y := by omega
  rw [e]; ring

/-- The `set_pixel` byte offset with the `i32` wrap-arounds discharged:
for in-range coordinates it is `(height - 1 - y) * (3 * width) + 3 * x`. -/
lemma pixelOffset_eq (bm : Bitmap) (w h x y : Nat) (hbw : bm.width = (w : Int))
    (hbh : bm.height = (h : Int)) (hx : x < w) (hy : y < h)
    (hb : h * (3 * w + w % 4) < 2 ^ 31) :
    bm.pixelOffset (x : Int) (y : Int) = (h - 1 - y) * (3 * w) + 3 * x := by
  have h3w : h * (3 * w) < 2 ^ 31 :=
    lt_of_le_of_lt (Nat.mul_le_mul_left h (Nat.le_add_right _ _)) hb
  have hhlt : h < 2 ^ 31 := by
    have h1 : h * 1 ≤ h * (3 * w) := Nat.mul_le_mul_left h (by omega)
    have h2 : h * 1 = h := Nat.mul_one h
    omega
  have hw3 : w * 3 < 2 ^ 31 := by
    have h1 : 3 * w ≤ h * (3 * w) := Nat.le_mul_of_pos_left _ (by omega)
    have h2 : w * 3 = 3 * w := by ring
    omega
  have hofflt := offset_lt w h x y hx hy
  have hcomm := offset_comm w h x y hy
  have hb1 : h - y < 2 ^ 31 := lt_of_le_of_lt (Nat.sub_le h y) hhlt
  have hb2 : h - y - 1 < 2 ^ 31 :=
    lt_of_le_of_lt (le_trans (Nat.sub_le _ _) (Nat.sub_le _ _)) hhlt
  have hb4 : (h - y - 1) * (w * 3) < 2 ^ 31 := by omega
  have hb5 : x * 3 < 2 ^ 31 := by
    have h1 : x * 3 ≤ w * 3 := Nat.mul_le_mul_right 3 hx.le
    omega
  have hb6 : (h - y - 1) * (w * 3) + x * 3 < 2 ^ 31 := by omega
  have hb7 : (h - y - 1) * (w * 3) + x * 3 < 2 ^ 64 :=
    lt_trans hb6 (by norm_num)
  unfold Bitmap.pixelOffset
  rw [hbw, hbh]
  have a1 : wrap32 ((h : Int) - (y : Int)) = ((h - y : Nat) : Int) := by
    rw [show ((h : Int) - (y : Int)) = ((h - y : Nat) : Int) by
      push_cast [Nat.cast_sub hy.le]; ring]
    exact wrap32_ofNat _ hb1
  have a2 : wrap32 (((h - y : Nat) : Int) - 1) = ((h - y - 1 : Nat) : Int) := by
    rw [show (((h - y : Nat) : Int) - 1) = ((h - y - 1 : Nat) : Int) by
      have hy1 : 1 ≤ h - y := by omega
      push_cast [Nat.cast_sub hy1]; ring]
    exact wrap32_ofNat _ hb2
  have a3 : wrap32 ((w : Int) * 3) = ((w * 3 : Nat) : Int) := by
    rw [show ((w : Int) * 3) = ((w * 3 : Nat) : Int) by push_cast; ring]
    exact wrap32_ofNat _ hw3
  have a4 : wrap32 (((h - y - 1 : Nat) : Int) * ((w * 3 : Nat) : Int))
      = (((h - y - 1) * (w * 3) : Nat) : Int) := by
    rw [show (((h - y - 1 : Nat) : Int) * ((w * 3 : Nat) : Int))
      = (((h - y - 1) * (w * 3) : Nat) : Int) by push_cast; ring]
    exact wrap32_ofNat _ hb4
  have a5 : wrap32 ((x : Int) * 3) = ((x * 3 : Nat) : Int) := by
    rw [show ((x : Int) * 3) = ((x * 3 : Nat) : Int) by push_cast; ring]
    exact wrap32_ofNat _ hb5
  have a6 : wrap32 ((((h - y - 1) * (w * 3) : Nat) : Int) + ((x * 3 : Nat) : Int))
      = (((h - y - 1) * (w * 3) + x * 3 : Nat) : Int) := by
    rw [show ((((h - y - 1) * (w * 3) : Nat) : Int) + ((x * 3 : Nat) : Int))
      = (((h - y - 1) * (w * 3) + x * 3 : Nat) : Int) by push_cast; ring]
    exact wrap32_ofNat _ hb6
  rw [a1, a2, a3, a4, a5, a6, toUint_ofNat _ hb7]
  exact hcomm

/-- The three-byte write of `set_pixel`, as the spec describes it: the
channel bytes stored at `i`, `i+1`, `i+2` in the order blue, green,
red. -/
def setBGR (l : List Nat) (i : Nat) (r g b : Nat) : List Nat :=
  ((l.set (i + 0) b).set (i + 1) g).set (i + 2) r

/-- `set_pixel` on an in-bounds offset: all three `get_mut` calls
succeed and the three bytes are written. -/
lemma set_pixel_some (bm : Bitmap) (x y : Int) (r g b : Nat)
    (hi : bm.pixelOffset x y + 2 < bm.pixels.length) :
    bm.set_pixel x y (r, g, b)
      = some { bm with pixels := setBGR bm.pixels (bm.pixelOffset x y) r g b } := by
  have h0 : bm.pixelOffset x y + 0 < bm.pixels.length := by omega
  have h1 : bm.pixelOffset x y + 1 < bm.pixels.length := by omega
  simp only [Bitmap.set_pixel, vecSet, setBGR]
  rw [if_pos h0, Option.some_bind]
  simp only [List.length_set]
  rw [if_pos h1, Option.some_bind]
  simp only [List.length_set]
  rw [if_pos hi, Option.some_bind]

/-- `write_to_file` against the accumulating sink emits exactly the
file header, the info header, and the pixel bytes, in order. -/
lemma encodeBytes_eq (bm : Bitmap) :
    bm.encodeBytes = bm.fileHeader ++ (bm.infoHeader ++ bm.pixels) := by
  show ((([] : List Nat) ++ bm.fileHeader) ++ bm.infoHeader) ++ bm.pixels = _
  simp [List.append_assoc]

lemma getD_replicate_of_lt (n : Nat) (a : Nat) (i : Nat) (h : i < n) :
    (List.replicate n a).getD i 0 = a := by
  simp [List.getD_eq_getElem?_getD, List.getElem?_replicate_of_lt h]

lemma getD_set_self (l : List Nat) (i v : Nat) (h : i < l.length) :
    (l.set i v).getD i 0 = v := by
  simp [List.getD_eq_getElem?_getD, List.getElem?_set_self h]

lemma getD_set_ne (l : List Nat) (i j v : Nat) (h : i ≠ j) :
    (l.set i v).getD j 0 = l.getD j 0 := by
  simp [List.getD_eq_getElem?_getD, List.getElem?_set_ne h]

/-- The read-back offset of `getPixel` on in-range coordinates. -/
lemma getPixel_offset_eq (w h x y : Nat) (hx : x < w) (hy : y < h) :
    (((h : Int) - (y : Int) - 1) * ((w : Int) * 3) + (x : Int) * 3).toNat
      = (h - 1 - y) * (3 * w) + 3 * x := by
  have e1 : ((h : Int) - (y : Int) - 1) = ((h - 1 - y : Nat) : Int) := by omega
  rw [e1, show ((w : Int) * 3) = ((3 * w : Nat) : Int) by push_cast; ring,
    show ((x : Int) * 3) = ((3 * x : Nat) : Int) by push_cast; ring,
    show (((h - 1 - y : Nat) : Int) * ((3 * w : Nat) : Int) + ((3 * x : Nat) : Int))
      = (((h - 1 - y) * (3 * w) + 3 * x : Nat) : Int) by push_cast; ring]
  exact Int.toNat_ofNat _

/-! ### The claims -/

/-- C1: for every bitmap, the encoder emits first the 14-byte file
header (bytes 0-1 ASCII 'B','M'; bytes 2-5 `file_size` little-endian;
bytes 6-9 zero; bytes 10-13 the fixed pixel-data offset 54), then the
40-byte info header (bytes 0-3 = 40; bytes 4-7 width LE; bytes 8-11
height LE; bytes 12-13 planes = 1; bytes 14-15 bits-per-pixel = 24;
bytes 16-19 compression = 0; bytes 20-23 `image_size` LE; bytes 24-31
resolution = 72 twice; bytes 32-39 zero), then the full pixel byte
array, in that order with nothing else. -/
theorem C1_header_layout (bm : Bitmap) (w h : Nat)
    (hbw : bm.width = (w : Int)) (hbh : bm.height = (h : Int)) :
    bm.fileHeader.length = 14 ∧ bm.infoHeader.length = 40 ∧
    bm.fileHeader
      = [66, 77] ++ leBytes bm.fileSize 4 ++ [0, 0, 0, 0] ++ leBytes 54 4 ∧
    bm.infoHeader
      = leBytes 40 4 ++ leBytes w 4 ++ leBytes h 4 ++ leBytes 1 2 ++ leBytes 24 2
        ++ leBytes 0 4 ++ leBytes bm.imageSize 4 ++ leBytes 72 4 ++ leBytes 72 4
        ++ leBytes 0 8 ∧
    bm.encodeBytes = bm.fileHeader ++ (bm.infoHeader ++ bm.pixels) := by
  refine ⟨rfl, rfl, ?_, ?_, encodeBytes_eq bm⟩
  · rw [← u32bytes_eq_leBytes bm.fileSize]
    rfl
  · show Bitmap.infoHeader bm = _
    rw [Bitmap.infoHeader, hbw, hbh, ← u32bytes_eq_leBytes bm.imageSize,
      ← i32bytes_eq_leBytes w, ← i32bytes_eq_leBytes h]
    rfl

theorem C1_header_layout_witness :
    (Bitmap.new 2 2).fileHeader.length = 14 ∧
    (Bitmap.new 2 2).infoHeader.length = 40 ∧
    (Bitmap.new 2 2).fileHeader
      = [66, 77] ++ leBytes (Bitmap.new 2 2).fileSize 4 ++ [0, 0, 0, 0]
        ++ leBytes 54 4 ∧
    (Bitmap.new 2 2).infoHeader
      = leBytes 40 4 ++ leBytes 2 4 ++ leBytes 2 4 ++ leBytes 1 2 ++ leBytes 24 2
        ++ leBytes 0 4 ++ leBytes (Bitmap.new 2 2).imageSize 4 ++ leBytes 72 4
        ++ leBytes 72 4 ++ leBytes 0 8 ∧
    (Bitmap.new 2 2).encodeBytes
      = (Bitmap.new 2 2).fileHeader
        ++ ((Bitmap.new 2 2).infoHeader ++ (Bitmap.new 2 2).pixels) :=
  C1_header_layout (Bitmap.new 2 2) 2 2 rfl rfl

/-- C2: for every in-range bitmap of dimensions `width`, `height`, the
encoder computes `image_size = height*width*3 + height*(width mod 4)`
and `file_size = image_size + 54`, and the `image_size` equals the
length of the allocated pixel array. -/
theorem C2_sizes (w h : Nat) (hw : 0 < w) (hh : 0 < h)
    (hb : h * (3 * w + w % 4) < 2 ^ 31) :
    (Bitmap.new (w : Int) (h : Int)).imageSize = h * w * 3 + h * (w % 4) ∧
    (Bitmap.new (w : Int) (h : Int)).fileSize
      = 54 + (Bitmap.new (w : Int) (h : Int)).imageSize ∧
    (Bitmap.new (w : Int) (h : Int)).imageSize
      = (Bitmap.new (w : Int) (h : Int)).pixels.length := by
  have hi := imageSize_eq (Bitmap.new (w : Int) (h : Int)) w h rfl rfl hw hh hb
  have hsplit : h * w * 3 + h * (w % 4) = h * (3 * w + w % 4) := by ring
  refine ⟨hi, ?_, ?_⟩
  · rw [fileSize_eq _ (by rw [hi]; omega)]
    omega
  · rw [hi, new_pixels_eq w h hw hh hb, List.length_replicate]
    omega

theorem C2_sizes_witness :
    0 < 2 ∧ 0 < 3 ∧ 3 * (3 * 2 + 2 % 4) < 2 ^ 31 ∧
    ((Bitmap.new ((2 : Nat) : Int) ((3 : Nat) : Int)).imageSize
        = 3 * 2 * 3 + 3 * (2 % 4) ∧
      (Bitmap.new ((2 : Nat) : Int) ((3 : Nat) : Int)).fileSize
        = 54 + (Bitmap.new ((2 : Nat) : Int) ((3 : Nat) : Int)).imageSize ∧
      (Bitmap.new ((2 : Nat) : Int) ((3 : Nat) : Int)).imageSize
        = (Bitmap.new ((2 : Nat) : Int) ((3 : Nat) : Int)).pixels.length) :=
  ⟨by norm_num, by norm_num, by norm_num,
    C2_sizes 2 3 (by norm_num) (by norm_num) (by norm_num)⟩

/-- C3: for `width, height > 0`, `Bitmap::new` allocates a pixel byte
sequence of exactly `height * (width*3 + width mod 4)` bytes, all
`0xFF`, and every in-range pixel of the fresh bitmap reads back as
white `(255, 255, 255)`. -/
theorem C3_new_white (w h : Nat) (hw : 0 < w) (hh : 0 < h)
    (hb : h * (3 * w + w % 4) < 2 ^ 31) :
    (Bitmap.new (w : Int) (h : Int)).pixels
      = List.replicate (h * (w * 3 + w % 4)) 255 ∧
    ∀ x y : Nat, x < w → y < h →
      (Bitmap.new (w : Int) (h : Int)).getPixel (x : Int) (y : Int)
        = (255, 255, 255) := by
  have hpx := new_pixels_eq w h hw hh hb
  have hcnt : h * (w * 3 + w % 4) = h * (3 * w + w % 4) := by ring
  constructor
  · rw [hpx, hcnt]
  · intro x y hx hy
    have hofflt := offset_lt w h x y hx hy
    show ((Bitmap.new (w : Int) (h : Int)).pixels.getD _ 0,
      (Bitmap.new (w : Int) (h : Int)).pixels.getD _ 0,
      (Bitmap.new (w : Int) (h : Int)).pixels.getD _ 0) = (255, 255, 255)
    rw [hpx, new_width, new_height, getPixel_offset_eq w h x y hx hy]
    rw [getD_replicate_of_lt _ _ _ (by omega),
      getD_replicate_of_lt _ _ _ (by omega),
      getD_replicate_of_lt _ _ _ (by omega)]

theorem C3_new_white_witness :
    0 < 2 ∧ 0 < 2 ∧ 2 * (3 * 2 + 2 % 4) < 2 ^ 31 ∧
    (Bitmap.new ((2 : Nat) : Int) ((2 : Nat) : Int)).pixels
      = List.replicate (2 * (2 * 3 + 2 % 4)) 255 ∧
    (Bitmap.new ((2 : Nat) : Int) ((2 : Nat) : Int)).getPixel
      ((1 : Nat) : Int) ((0 : Nat) : Int) = (255, 255, 255) :=
  ⟨by norm_num, by norm_num, by norm_num,
    (C3_new_white 2 2 (by norm_num) (by norm_num) (by norm_num)).1,
    (C3_new_white 2 2 (by norm_num) (by norm_num) (by norm_num)).2
      1 0 (by norm_num) (by norm_num)⟩

/-- C4: for in-range coordinates and any color, `set_pixel` succeeds
and writes exactly the three bytes at offsets `i`, `i+1`, `i+2`,
`i = (height - y - 1) * (width * 3) + x * 3`, in the order
`(blue, green, red)` — reversed from the caller's `(r, g, b)`. -/
theorem C4_set_pixel_writes (bm : Bitmap) (w h x y r g b : Nat)
    (hbw : bm.width = (w : Int)) (hbh : bm.height = (h : Int))
    (hlen : bm.pixels.length = h * (3 * w + w % 4))
    (hx : x < w) (hy : y < h) (hb : h * (3 * w + w % 4) < 2 ^ 31) :
    bm.set_pixel (x : Int) (y : Int) (r, g, b)
      = some { bm with
          pixels := setBGR bm.pixels ((h - y - 1) * (w * 3) + x * 3) r g b } := by
  have hoff := pixelOffset_eq bm w h x y hbw hbh hx hy hb
  have hcomm := offset_comm w h x y hy
  have hofflt := offset_lt w h x y hx hy
  have hi : bm.pixelOffset (x : Int) (y : Int) + 2 < bm.pixels.length := by
    rw [hoff, hlen]; omega
  rw [set_pixel_some bm (x : Int) (y : Int) r g b hi, hoff, hcomm]

theorem C4_set_pixel_writes_witness :
    (Bitmap.new ((2 : Nat) : Int) ((2 : Nat) : Int)).set_pixel
        ((1 : Nat) : Int) ((0 : Nat) : Int) (9, 8, 7)
      = some { Bitmap.new ((2 : Nat) : Int) ((2 : Nat) : Int) with
          pixels := setBGR (Bitmap.new ((2 : Nat) : Int) ((2 : Nat) : Int)).pixels
            ((2 - 0 - 1) * (2 * 3) + 1 * 3) 9 8 7 } :=
  C4_set_pixel_writes (Bitmap.new ((2 : Nat) : Int) ((2 : Nat) : Int))
    2 2 1 0 9 8 7 rfl rfl (by decide) (by norm_num) (by norm_num) (by norm_num)

/-- C9: for an in-range bitmap and in-range coordinates, all three byte
offsets accessed by `set_pixel` are strictly below the allocated pixel
array length, so `set_pixel` succeeds — the bounds-check failure branch
is unreachable. -/
theorem C9_in_bounds (bm : Bitmap) (w h x y r g b : Nat)
    (hbw : bm.width = (w : Int)) (hbh : bm.height = (h : Int))
    (hlen : bm.pixels.length = h * (3 * w + w % 4))
    (hx : x < w) (hy : y < h) (hb : h * (3 * w + w % 4) < 2 ^ 31) :
    bm.pixelOffset (x : Int) (y : Int) + 2 < bm.pixels.length ∧
    (bm.set_pixel (x : Int) (y : Int) (r, g, b)).isSome = true := by
  have hoff := pixelOffset_eq bm w h x y hbw hbh hx hy hb
  have hofflt := offset_lt w h x y hx hy
  have hi : bm.pixelOffset (x : Int) (y : Int) + 2 < bm.pixels.length := by
    rw [hoff, hlen]; omega
  exact ⟨hi, by rw [set_pixel_some bm (x : Int) (y : Int) r g b hi]; rfl⟩

theorem C9_in_bounds_witness :
    (Bitmap.new ((3 : Nat) : Int) ((2 : Nat) : Int)).pixelOffset
        ((2 : Nat) : Int) ((1 : Nat) : Int) + 2
      < (Bitmap.new ((3 : Nat) : Int) ((2 : Nat) : Int)).pixels.length ∧
    ((Bitmap.new ((3 : Nat) : Int) ((2 : Nat) : Int)).set_pixel
        ((2 : Nat) : Int) ((1 : Nat) : Int) (1, 2, 3)).isSome = true :=
  C9_in_bounds (Bitmap.new ((3 : Nat) : Int) ((2 : Nat) : Int))
    3 2 2 1 1 2 3 rfl rfl (by decide) (by norm_num) (by norm_num) (by norm_num)

/-- Row/column decomposition of pixel indices is unique. -/
lemma rowcol_inj (w a b x1 x2 : Nat) (hx1 : x1 < w) (hx2 : x2 < w)
    (heq : a * w + x1 = b * w + x2) : a = b ∧ x1 = x2 := by
  have h1 : (a * w + x1) % w = x1 := by
    rw [Nat.mul_comm a w, Nat.mul_add_mod]; exact Nat.mod_eq_of_lt hx1
  have h2 : (b * w + x2) % w = x2 := by
    rw [Nat.mul_comm b w, Nat.mul_add_mod]; exact Nat.mod_eq_of_lt hx2
  have hx : x1 = x2 := by rw [← h1, ← h2, heq]
  have hw : 0 < w := by omega
  have h3 : a * w = b * w := by omega
  exact ⟨Nat.eq_of_mul_eq_mul_right hw h3, hx⟩

/-- Distinct pixels occupy disjoint 3-byte windows. -/
lemma three_sep (k m d1 d2 : Nat) (hk : k ≠ m) (h1 : d1 < 3) (h2 : d2 < 3) :
    3 * k + d1 ≠ 3 * m + d2 := by omega

/-- C7: `set_pixel(x, y, (r,g,b))` followed by reading back `(x, y)`
yields `(r, g, b)`, and every other in-range pixel reads back exactly
what it read before the call — no aliasing across rows or columns. -/
theorem C7_set_get_frame (bm : Bitmap) (w h x y r g b : Nat)
    (hbw : bm.width = (w : Int)) (hbh : bm.height = (h : Int))
    (hlen : bm.pixels.length = h * (3 * w + w % 4))
    (hx : x < w) (hy : y < h) (hb : h * (3 * w + w % 4) < 2 ^ 31) :
    (bm.set_pixel (x : Int) (y : Int) (r, g, b)).map
        (fun bm2 => bm2.getPixel (x : Int) (y : Int)) = some (r, g, b) ∧
    ∀ x2 y2 : Nat, x2 < w → y2 < h → (x2, y2) ≠ (x, y) →
      (bm.set_pixel (x : Int) (y : Int) (r, g, b)).map
          (fun bm2 => bm2.getPixel (x2 : Int) (y2 : Int))
        = some (bm.getPixel (x2 : Int) (y2 : Int)) := by
  have hoff := pixelOffset_eq bm w h x y hbw hbh hx hy hb
  have hofflt := offset_lt w h x y hx hy
  have hi : bm.pixelOffset (x : Int) (y : Int) + 2 < bm.pixels.length := by
    rw [hoff, hlen]; omega
  have hi2 : (h - 1 - y) * (3 * w) + 3 * x + 2 < bm.pixels.length := by
    rw [hlen]; omega
  rw [set_pixel_some bm (x : Int) (y : Int) r g b hi, hoff]
  constructor
  · simp only [Option.map_some', Option.some.injEq, Bitmap.getPixel]
    rw [hbw, hbh, getPixel_offset_eq w h x y hx hy]
    simp only [Prod.mk.injEq]
    refine ⟨?_, ?_, ?_⟩
    · show (setBGR bm.pixels ((h - 1 - y) * (3 * w) + 3 * x) r g b).getD
        ((h - 1 - y) * (3 * w) + 3 * x + 2) 0 = r
      simp only [setBGR]
      exact getD_set_self _ _ _ (by simp only [List.length_set]; omega)
    · show (setBGR bm.pixels ((h - 1 - y) * (3 * w) + 3 * x) r g b).getD
        ((h - 1 - y) * (3 * w) + 3 * x + 1) 0 = g
      simp only [setBGR]
      rw [getD_set_ne _ _ _ _ (by omega)]
      exact getD_set_self _ _ _ (by simp only [List.length_set]; omega)
    · show (setBGR bm.pixels ((h - 1 - y) * (3 * w) + 3 * x) r g b).getD
        ((h - 1 - y) * (3 * w) + 3 * x + 0) 0 = b
      simp only [setBGR]
      rw [getD_set_ne _ _ _ _ (by omega), getD_set_ne _ _ _ _ (by omega)]
      exact getD_set_self _ _ _ (by omega)
  · intro x2 y2 hx2 hy2 hne
    have hkm : (h - 1 - y2) * w + x2 ≠ (h - 1 - y) * w + x := by
      intro heq
      obtain ⟨hrow, hcol⟩ :=
        rowcol_inj w (h - 1 - y2) (h - 1 - y) x2 x hx2 hx heq
      apply hne
      have hy2e : y2 = y := by omega
      rw [hcol, hy2e]
    have e1 : (h - 1 - y) * (3 * w) + 3 * x = 3 * ((h - 1 - y) * w + x) := by
      ring
    have e2 : (h - 1 - y2) * (3 * w) + 3 * x2 = 3 * ((h - 1 - y2) * w + x2) := by
      ring
    simp only [Option.map_some', Option.some.injEq, Bitmap.getPixel]
    rw [hbw, hbh, getPixel_offset_eq w h x2 y2 hx2 hy2]
    simp only [Prod.mk.injEq, setBGR, e1, e2]
    have hk1 : (h - 1 - y) * w + x ≠ (h - 1 - y2) * w + x2 := Ne.symm hkm
    refine ⟨?_, ?_, ?_⟩
    · rw [getD_set_ne _ _ _ _ (three_sep _ _ 2 2 hk1 (by norm_num) (by norm_num)),
        getD_set_ne _ _ _ _ (three_sep _ _ 1 2 hk1 (by norm_num) (by norm_num)),
        getD_set_ne _ _ _ _ (three_sep _ _ 0 2 hk1 (by norm_num) (by norm_num))]
    · rw [getD_set_ne _ _ _ _ (three_sep _ _ 2 1 hk1 (by norm_num) (by norm_num)),
        getD_set_ne _ _ _ _ (three_sep _ _ 1 1 hk1 (by norm_num) (by norm_num)),
        getD_set_ne _ _ _ _ (three_sep _ _ 0 1 hk1 (by norm_num) (by norm_num))]
    · rw [getD_set_ne _ _ _ _ (three_sep _ _ 2 0 hk1 (by norm_num) (by norm_num)),
        getD_set_ne _ _ _ _ (three_sep _ _ 1 0 hk1 (by norm_num) (by norm_num)),
        getD_set_ne _ _ _ _ (three_sep _ _ 0 0 hk1 (by norm_num) (by norm_num))]

lemma setBGR_length (l : List Nat) (i r g b : Nat) :
    (setBGR l i r g b).length = l.length := by
  simp [setBGR]

/-- Dropping the 54 header bytes of the encoded stream lands in the
pixel array. -/
lemma encode_drop (bm : Bitmap) (k m : Nat) (hk : k = 54 + m) :
    bm.encodeBytes.drop k = bm.pixels.drop m := by
  have h14 : bm.fileHeader.length = 14 := rfl
  have h40 : bm.infoHeader.length = 40 := rfl
  rw [encodeBytes_eq, hk,
    show 54 + m = bm.fileHeader.length + (bm.infoHeader.length + m) by
      rw [h14, h40]; omega,
    List.drop_append, List.drop_append]

/-- The first three bytes after position `n` are the bytes at `n`,
`n+1`, `n+2`. -/
lemma take_three (l : List Nat) (n : Nat) (hn : n + 2 < l.length) :
    (l.drop n).take 3 = [l.getD n 0, l.getD (n + 1) 0, l.getD (n + 2) 0] := by
  apply List.ext_getElem?
  intro j
  rcases j with _ | _ | _ | j
  · rw [List.getElem?_take_of_lt (by norm_num), List.getElem?_drop]
    simp [List.getD_eq_getElem?_getD, List.getElem?_eq_getElem
      (show n < l.length by omega)]
  · rw [List.getElem?_take_of_lt (by norm_num), List.getElem?_drop]
    simp [List.getD_eq_getElem?_getD, List.getElem?_eq_getElem
      (show n + 1 < l.length by omega)]
  · rw [List.getElem?_take_of_lt (by norm_num), List.getElem?_drop]
    simp [List.getD_eq_getElem?_getD, List.getElem?_eq_getElem
      (show n + 2 < l.length by omega)]
  · rw [List.getElem?_eq_none (by rw [List.length_take]; omega)]
    simp

/-- C6: `set_pixel(0, 0, C)` places `C` at the start of the last row of
the encoded pixel data (bottom-up storage); `set_pixel(0, height-1, C)`
places it at the start of the first emitted row. -/
theorem C6_vertical_flip (bm : Bitmap) (w h r g b : Nat)
    (hbw : bm.width = (w : Int)) (hbh : bm.height = (h : Int))
    (hlen : bm.pixels.length = h * (3 * w + w % 4))
    (hw : 0 < w) (hh : 0 < h) (hb : h * (3 * w + w % 4) < 2 ^ 31) :
    ((bm.set_pixel ((0 : Nat) : Int) ((0 : Nat) : Int) (r, g, b)).map
        (fun bm2 => (bm2.encodeBytes.drop (54 + (h - 1) * (3 * w))).take 3))
      = some [b, g, r] ∧
    ((bm.set_pixel ((0 : Nat) : Int) ((h - 1 : Nat) : Int) (r, g, b)).map
        (fun bm2 => (bm2.encodeBytes.drop 54).take 3))
      = some [b, g, r] := by
  constructor
  · have hoff := pixelOffset_eq bm w h 0 0 hbw hbh hw hh hb
    have hofflt := offset_lt w h 0 0 hw hh
    have hsimp : (h - 1 - 0) * (3 * w) + 3 * 0 = (h - 1) * (3 * w) := by simp
    have hi : bm.pixelOffset ((0 : Nat) : Int) ((0 : Nat) : Int) + 2
        < bm.pixels.length := by
      rw [hoff, hlen]; omega
    have hn2 : (h - 1) * (3 * w) + 2 < bm.pixels.length := by rw [hlen]; omega
    rw [set_pixel_some bm _ _ r g b hi, hoff, hsimp]
    simp only [Option.map_some', Option.some.injEq]
    rw [encode_drop _ _ _ rfl]
    show ((setBGR bm.pixels ((h - 1) * (3 * w)) r g b).drop
      ((h - 1) * (3 * w))).take 3 = [b, g, r]
    rw [take_three _ _ (by rw [setBGR_length]; omega)]
    simp only [setBGR, Nat.add_zero]
    rw [getD_set_ne _ _ _ _ (by omega), getD_set_ne _ _ _ _ (by omega),
      getD_set_self _ _ _ (by omega)]
    rw [getD_set_ne _ _ _ _ (by omega),
      getD_set_self _ _ _ (by simp only [List.length_set]; omega)]
    rw [getD_set_self _ _ _ (by simp only [List.length_set]; omega)]
  · have hy : h - 1 < h := by omega
    have hoff := pixelOffset_eq bm w h 0 (h - 1) hbw hbh hw hy hb
    have hofflt := offset_lt w h 0 (h - 1) hw hy
    have hsimp : (h - 1 - (h - 1)) * (3 * w) + 3 * 0 = 0 := by
      have e : h - 1 - (h - 1) = 0 := by omega
      simp [e]
    have hi : bm.pixelOffset ((0 : Nat) : Int) ((h - 1 : Nat) : Int) + 2
        < bm.pixels.length := by
      rw [hoff, hlen]; omega
    have hn2 : 0 + 2 < bm.pixels.length := by rw [hlen]; omega
    rw [set_pixel_some bm _ _ r g b hi, hoff, hsimp]
    simp only [Option.map_some', Option.some.injEq]
    rw [encode_drop _ _ 0 rfl]
    show ((setBGR bm.pixels 0 r g b).drop 0).take 3 = [b, g, r]
    rw [List.drop_zero, show (setBGR bm.pixels 0 r g b).take 3
      = ((setBGR bm.pixels 0 r g b).drop 0).take 3 by rw [List.drop_zero]]
    rw [take_three _ _ (by rw [setBGR_length]; omega)]
    simp only [setBGR, Nat.add_zero, Nat.zero_add]
    rw [getD_set_ne _ _ _ _ (by omega), getD_set_ne _ _ _ _ (by omega),
      getD_set_self _ _ _ (by omega)]
    rw [getD_set_ne _ _ _ _ (by omega),
      getD_set_self _ _ _ (by simp only [List.length_set]; omega)]
    rw [getD_set_self _ _ _ (by simp only [List.length_set]; omega)]

theorem C7_set_get_frame_witness :
    ((Bitmap.new ((2 : Nat) : Int) ((2 : Nat) : Int)).set_pixel
        ((0 : Nat) : Int) ((0 : Nat) : Int) (1, 2, 3)).map
      (fun bm2 => bm2.getPixel ((0 : Nat) : Int) ((0 : Nat) : Int))
        = some (1, 2, 3) ∧
    ((Bitmap.new ((2 : Nat) : Int) ((2 : Nat) : Int)).set_pixel
        ((0 : Nat) : Int) ((0 : Nat) : Int) (1, 2, 3)).map
      (fun bm2 => bm2.getPixel ((1 : Nat) : Int) ((1 : Nat) : Int))
        = some ((Bitmap.new ((2 : Nat) : Int) ((2 : Nat) : Int)).getPixel
            ((1 : Nat) : Int) ((1 : Nat) : Int)) :=
  ⟨(C7_set_get_frame (Bitmap.new ((2 : Nat) : Int) ((2 : Nat) : Int))
      2 2 0 0 1 2 3 rfl rfl (by decide) (by norm_num) (by norm_num)
      (by norm_num)).1,
    (C7_set_get_frame (Bitmap.new ((2 : Nat) : Int) ((2 : Nat) : Int))
      2 2 0 0 1 2 3 rfl rfl (by decide) (by norm_num) (by norm_num)
      (by norm_num)).2 1 1 (by norm_num) (by norm_num) (by decide)⟩

theorem C6_vertical_flip_witness :
    (((Bitmap.new ((2 : Nat) : Int) ((2 : Nat) : Int)).set_pixel
        ((0 : Nat) : Int) ((0 : Nat) : Int) (5, 6, 7)).map
      (fun bm2 => (bm2.encodeBytes.drop (54 + (2 - 1) * (3 * 2))).take 3))
        = some [7, 6, 5] ∧
    (((Bitmap.new ((2 : Nat) : Int) ((2 : Nat) : Int)).set_pixel
        ((0 : Nat) : Int) ((2 - 1 : Nat) : Int) (5, 6, 7)).map
      (fun bm2 => (bm2.encodeBytes.drop 54).take 3))
        = some [7, 6, 5] :=
  C6_vertical_flip (Bitmap.new ((2 : Nat) : Int) ((2 : Nat) : Int))
    2 2 5 6 7 rfl rfl (by decide) (by norm_num) (by norm_num) (by norm_num)

/-- In-range offsets stay inside the unpadded `3*w*h` row region. -/
lemma offset_lt_row (w h x y : Nat) (hx : x < w) (hy : y < h) :
    (h - 1 - y) * (3 * w) + 3 * x + 2 < 3 * w * h := by
  have hA : (h - 1 - y) * (3 * w) ≤ (h - 1) * (3 * w) :=
    Nat.mul_le_mul_right _ (by omega)
  have hB : ((h - 1) + 1) * (3 * w) = (h - 1) * (3 * w) + 3 * w := Nat.succ_mul _ _
  have hB' : (h - 1) + 1 = h := by omega
  rw [hB'] at hB
  have hE : 3 * w * h = h * (3 * w) := by ring
  have hx3 : 3 * (x + 1) ≤ 3 * w := Nat.mul_le_mul_left 3 (by omega)
  have hx3' : 3 * (x + 1) = 3 * x + 3 := by ring
  linarith

/-- The bitmaps reachable from `Bitmap::new(w, h)` by any sequence of
in-range `set_pixel` calls. -/
inductive Reached (w h : Nat) : Bitmap → Prop where
  | new : Reached w h (Bitmap.new (w : Int) (h : Int))
  | set (bm bm2 : Bitmap) (x y r g b : Nat) (hx : x < w) (hy : y < h)
      (hr : Reached w h bm)
      (hs : bm.set_pixel (x : Int) (y : Int) (r, g, b) = some bm2) :
      Reached w h bm2

/-- Every reachable bitmap keeps its dimensions, its allocated length,
and `0xFF` in every byte of the trailing padding region. -/
lemma reached_inv (w h : Nat) (hw : 0 < w) (hh : 0 < h)
    (hb : h * (3 * w + w % 4) < 2 ^ 31) (bm : Bitmap)
    (hr : Reached w h bm) :
    bm.width = (w : Int) ∧ bm.height = (h : Int) ∧
    bm.pixels.length = h * (3 * w + w % 4) ∧
    (∀ j, 3 * w * h ≤ j → j < bm.pixels.length → bm.pixels.getD j 0 = 255) := by
  induction hr with
  | new =>
      refine ⟨rfl, rfl, ?_, ?_⟩
      · rw [new_pixels_eq w h hw hh hb, List.length_replicate]
      · intro j hj hjl
        rw [new_pixels_eq w h hw hh hb] at hjl ⊢
        rw [List.length_replicate] at hjl
        exact getD_replicate_of_lt _ _ _ hjl
  | set bm bm2 x y r g b hx hy hr hs ih =>
      obtain ⟨hbw, hbh, hlen, hwhite⟩ := ih
      have hoff := pixelOffset_eq bm w h x y hbw hbh hx hy hb
      have hofflt := offset_lt w h x y hx hy
      have hrow := offset_lt_row w h x y hx hy
      have hi : bm.pixelOffset (x : Int) (y : Int) + 2 < bm.pixels.length := by
        rw [hoff, hlen]; omega
      rw [set_pixel_some bm (x : Int) (y : Int) r g b hi, hoff] at hs
      have hbm2 := (Option.some.inj hs).symm
      subst hbm2
      refine ⟨hbw, hbh, ?_, ?_⟩
      · show (setBGR bm.pixels _ r g b).length = _
        rw [setBGR_length]; exact hlen
      · intro j hj hjl
        replace hjl : j < (setBGR bm.pixels
            ((h - 1 - y) * (3 * w) + 3 * x) r g b).length := hjl
        rw [setBGR_length] at hjl
        show (setBGR bm.pixels ((h - 1 - y) * (3 * w) + 3 * x) r g b).getD j 0
          = 255
        simp only [setBGR]
        rw [getD_set_ne _ _ _ _ (by omega), getD_set_ne _ _ _ _ (by omega),
          getD_set_ne _ _ _ _ (by omega)]
        exact hwhite j hj hjl

lemma drop_eq_replicate_of_getD (l : List Nat) (n k : Nat)
    (hlen : l.length = n + k)
    (hval : ∀ j, n ≤ j → j < l.length → l.getD j 0 = 255) :
    l.drop n = List.replicate k 255 := by
  apply List.ext_getElem?
  intro j
  rw [List.getElem?_drop, List.getElem?_replicate]
  by_cases hj : j < k
  · rw [if_pos hj]
    have hjl : n + j < l.length := by omega
    have hv := hval (n + j) (by omega) hjl
    rw [List.getD_eq_getElem?_getD, List.getElem?_eq_getElem hjl] at hv
    rw [List.getElem?_eq_getElem hjl]
    simp only [Option.getD_some] at hv
    rw [hv]
  · rw [if_neg hj]
    exact List.getElem?_eq_none (by omega)

/-- C10: after any sequence of in-range `set_pixel` calls on a freshly
constructed bitmap, every byte of the trailing `height*(width mod 4)`
padding region (offsets at or past `3*width*height`) still reads
`0xFF`, so the encoded output ends with `height*(width mod 4)` bytes
equal to `0xFF`. -/
theorem C10_padding_white (w h : Nat) (hw : 0 < w) (hh : 0 < h)
    (hb : h * (3 * w + w % 4) < 2 ^ 31) (bm : Bitmap)
    (hr : Reached w h bm) :
    (∀ j, 3 * w * h ≤ j → j < bm.pixels.length → bm.pixels.getD j 0 = 255) ∧
    bm.encodeBytes.drop (54 + 3 * w * h) = List.replicate (h * (w % 4)) 255 := by
  obtain ⟨hbw, hbh, hlen, hwhite⟩ := reached_inv w h hw hh hb bm hr
  refine ⟨hwhite, ?_⟩
  rw [encode_drop _ _ _ rfl]
  apply drop_eq_replicate_of_getD _ _ _ (by rw [hlen]; ring) hwhite

theorem C10_padding_white_witness :
    (∀ j, 3 * 2 * 2 ≤ j →
      j < (Bitmap.new ((2 : Nat) : Int) ((2 : Nat) : Int)).pixels.length →
      (Bitmap.new ((2 : Nat) : Int) ((2 : Nat) : Int)).pixels.getD j 0 = 255) ∧
    (Bitmap.new ((2 : Nat) : Int) ((2 : Nat) : Int)).encodeBytes.drop
        (54 + 3 * 2 * 2)
      = List.replicate (2 * (2 % 4)) 255 :=
  C10_padding_white 2 2 (by norm_num) (by norm_num) (by norm_num)
    (Bitmap.new ((2 : Nat) : Int) ((2 : Nat) : Int)) Reached.new

/-- C8: the first sink failure aborts the encode and is surfaced to the
caller: if the sink rejects the file header, `write_to_file` returns
that error without the result depending on any later write; the same
holds for a failure on the info header, and after two successful writes
the outcome is exactly the sink's response to the pixel bytes — no
retry, no recovery. -/
theorem C8_sink_failure {σ ε : Type} (bm : Bitmap) (sink : Sink σ ε) (s : σ)
    (e : ε) :
    (sink.write s bm.fileHeader = Except.error e →
      bm.write_to_file sink s = Except.error e) ∧
    (∀ s1, sink.write s bm.fileHeader = Except.ok s1 →
      sink.write s1 bm.infoHeader = Except.error e →
      bm.write_to_file sink s = Except.error e) ∧
    (∀ s1 s2, sink.write s bm.fileHeader = Except.ok s1 →
      sink.write s1 bm.infoHeader = Except.ok s2 →
      bm.write_to_file sink s = sink.write s2 bm.pixels) := by
  refine ⟨?_, ?_, ?_⟩
  · intro h1
    unfold Bitmap.write_to_file
    rw [h1]
  · intro s1 h1 h2
    unfold Bitmap.write_to_file
    rw [h1]
    show (match sink.write s1 bm.infoHeader with
      | Except.error e => Except.error e
      | Except.ok s2 => sink.write s2 bm.pixels) = Except.error e
    rw [h2]
  · intro s1 s2 h1 h2
    unfold Bitmap.write_to_file
    rw [h1]
    show (match sink.write s1 bm.infoHeader with
      | Except.error e => Except.error e
      | Except.ok s2 => sink.write s2 bm.pixels) = sink.write s2 bm.pixels
    rw [h2]

/-- A sink that rejects every write with error code `7`. -/
def failSink : Sink Unit Nat :=
  { write := fun _ _ => Except.error 7 }

theorem C8_sink_failure_witness :
    failSink.write () (Bitmap.new 1 1).fileHeader = Except.error 7 ∧
    (Bitmap.new 1 1).write_to_file failSink () = Except.error 7 :=
  ⟨rfl, (C8_sink_failure (Bitmap.new 1 1) failSink () 7).1 rfl⟩

/-- The spec's round-trip scenario: a `2x2` bitmap with all four pixels
set to `(10, 20, 30)`. -/
def bm2x2 : Option Bitmap :=
  (Bitmap.new 2 2).set_pixel 0 0 (10, 20, 30) >>= fun b1 =>
    b1.set_pixel 1 0 (10, 20, 30) >>= fun b2 =>
      b2.set_pixel 0 1 (10, 20, 30) >>= fun b3 =>
        b3.set_pixel 1 1 (10, 20, 30)

/-- C5 as stated is false: the emitted pixel data is not exactly four
repetitions of `[30, 20, 10]` — the buffer carries 4 further trailing
padding bytes. -/
theorem C5_layout_counterexample :
    bm2x2.map (fun bm => bm.encodeBytes.drop 54)
      ≠ some [30, 20, 10, 30, 20, 10, 30, 20, 10, 30, 20, 10] := by
  decide

/-- C5 (amended): the encode of the `2x2` all-`(10,20,30)` bitmap is
exactly the claimed file header and info header, then four repetitions
of `[30, 20, 10]`, then the `height*(width mod 4) = 4` trailing `0xFF`
padding bytes of the buffer; the total length is `54 + image_size`
with `image_size = 16`. -/
theorem C5_layout_amended :
    bm2x2.map Bitmap.encodeBytes
      = some ([66, 77, 70, 0, 0, 0, 0, 0, 0, 0, 54, 0, 0, 0]
          ++ [40, 0, 0, 0, 2, 0, 0, 0, 2, 0, 0, 0, 1, 0, 24, 0, 0, 0, 0, 0,
              16, 0, 0, 0, 72, 0, 0, 0, 72, 0, 0, 0, 0, 0, 0, 0, 0, 0, 0, 0]
          ++ [30, 20, 10, 30, 20, 10, 30, 20, 10, 30, 20, 10]
          ++ [255, 255, 255, 255]) ∧
    bm2x2.map (fun bm => bm.encodeBytes.length) = some (54 + 16) ∧
    bm2x2.map Bitmap.imageSize = some 16 := by
  refine ⟨by decide, by decide, by decide⟩

